import Mathlib

/-
Verification development for the GADDAG move-generation and scoring engine of
the lexikonbeta backend (src/src/services/QuackleGADDAGAIService.ts and its
collaborators).  Pure functions of the TypeScript source are embedded as Lean
definitions; the filesystem is abstracted as the list of contents found at the
three candidate dictionary paths, and asynchronous collaborator outcomes
(timeouts, external validation) appear as explicit `Except` parameters.
-/

set_option maxRecDepth 4000

/-! ## GADDAG trie

Symbols on gaddag arcs: a letter, or the direction-change delimiter. -/

inductive GSym where
  | letter (c : Char)
  | delim
deriving DecidableEq, Repr

/-- Modelled from the spec: the repository imports `Gaddag` from
`./gaddag/gaddag`, which is not part of the available sources.  Per the spec's
data model, a GADDAG node carries "a mapping from letter-code (including a
special direction-change delimiter symbol) to child node reference" and "a
boolean marking is-this-path-a-complete-word"; the trie is built once by
`addWord` and never mutated afterwards. -/
inductive Gaddag where
  | node (complete : Bool) (children : List (GSym × Gaddag))
deriving Repr

def Gaddag.empty : Gaddag := .node false []

def Gaddag.complete : Gaddag → Bool
  | .node b _ => b

def Gaddag.children : Gaddag → List (GSym × Gaddag)
  | .node _ ch => ch

/-- First child of `ch` reached by symbol `s`, if any. -/
def findChild (ch : List (GSym × Gaddag)) (s : GSym) : Option Gaddag :=
  match ch with
  | [] => none
  | (k, t) :: rest => if k = s then some t else findChild rest s

/-- Replace the child reached by `s` with `t` (appending a fresh arc when
`s` has no child yet). -/
def replaceChild (ch : List (GSym × Gaddag)) (s : GSym) (t : Gaddag) :
    List (GSym × Gaddag) :=
  match ch with
  | [] => [(s, t)]
  | (k, v) :: rest =>
    if k = s then (s, t) :: rest else (k, v) :: replaceChild rest s t

/-- Modelled from the spec: inserting one symbol path into the trie, "creating
nodes as needed and marking the terminal node of each rotation path as
complete". -/
def Gaddag.insertPath : Gaddag → List GSym → Gaddag
  | .node _ ch, [] => .node true ch
  | .node b ch, s :: rest =>
    .node b (replaceChild ch s
      (Gaddag.insertPath ((findChild ch s).getD Gaddag.empty) rest))

/-- Does the trie contain `p` as a path ending at a node marked complete? -/
def Gaddag.containsPath : Gaddag → List GSym → Bool
  | g, [] => g.complete
  | .node _ ch, s :: rest =>
    match findChild ch s with
    | some t => Gaddag.containsPath t rest
    | none => false

/-- The gaddag path of word `w` at split position `i`: the reversed prefix
`w[0..i)`, the delimiter, then the suffix `w[i..)`. -/
def gaddagPath (w : String) (i : Nat) : List GSym :=
  ((w.data.take i).reverse.map GSym.letter) ++
    GSym.delim :: ((w.data.drop i).map GSym.letter)

/-- Modelled from the spec: `addWord(word)` "inserts all n+1 rotations of the
word (one per split position)" into the trie. -/
def Gaddag.addWord (g : Gaddag) (w : String) : Gaddag :=
  List.foldl Gaddag.insertPath g
    ((List.range (w.length + 1)).map (gaddagPath w))

/-! ### Trie lemmas -/

theorem findChild_replaceChild_self (ch : List (GSym × Gaddag)) (s : GSym)
    (t : Gaddag) : findChild (replaceChild ch s t) s = some t := by
  induction ch with
  | nil => simp [replaceChild, findChild]
  | cons kv rest ih =>
    obtain ⟨k, v⟩ := kv
    by_cases h : k = s
    · simp [replaceChild, findChild, h]
    · simp [replaceChild, findChild, h, ih]

theorem findChild_replaceChild_ne (ch : List (GSym × Gaddag)) (s k : GSym)
    (t : Gaddag) (hks : k ≠ s) :
    findChild (replaceChild ch s t) k = findChild ch k := by
  induction ch with
  | nil => simp [replaceChild, findChild, Ne.symm hks]
  | cons kv rest ih =>
    obtain ⟨k', v⟩ := kv
    by_cases h : k' = s
    · subst h
      simp [replaceChild, findChild, Ne.symm hks, hks]
    · by_cases h2 : k' = k
      · subst h2
        simp [replaceChild, findChild, h]
      · simp [replaceChild, findChild, h, h2, ih]

theorem containsPath_insertPath_self (p : List GSym) :
    ∀ g : Gaddag, (g.insertPath p).containsPath p = true := by
  induction p with
  | nil =>
    intro g; obtain ⟨b, ch⟩ := g
    simp [Gaddag.insertPath, Gaddag.containsPath, Gaddag.complete]
  | cons s rest ih =>
    intro g; obtain ⟨b, ch⟩ := g
    simp [Gaddag.insertPath, Gaddag.containsPath,
      findChild_replaceChild_self, ih]

theorem containsPath_insertPath_mono (q : List GSym) :
    ∀ (p : List GSym) (g : Gaddag), g.containsPath q = true →
      (g.insertPath p).containsPath q = true := by
  induction q with
  | nil =>
    intro p g hq
    obtain ⟨b, ch⟩ := g
    cases p with
    | nil => simp [Gaddag.insertPath, Gaddag.containsPath, Gaddag.complete]
    | cons s pr =>
      simpa [Gaddag.insertPath, Gaddag.containsPath, Gaddag.complete]
        using hq
  | cons k qr ih =>
    intro p g hq
    obtain ⟨b, ch⟩ := g
    cases p with
    | nil => simpa [Gaddag.insertPath, Gaddag.containsPath] using hq
    | cons s pr =>
      simp only [Gaddag.containsPath, Gaddag.insertPath] at hq ⊢
      by_cases hks : k = s
      · subst hks
        rw [findChild_replaceChild_self]
        cases hfc : findChild ch k with
        | none => rw [hfc] at hq; exact absurd hq (by simp)
        | some t0 =>
          rw [hfc] at hq
          simpa [hfc] using ih pr t0 hq
      · rw [findChild_replaceChild_ne ch s k _ hks]
        cases hfc : findChild ch k with
        | none => rw [hfc] at hq; exact absurd hq (by simp)
        | some t0 => rw [hfc] at hq; exact hq

theorem containsPath_foldl_insertPath_mono (ps : List (List GSym)) :
    ∀ (g : Gaddag) (q : List GSym), g.containsPath q = true →
      (List.foldl Gaddag.insertPath g ps).containsPath q = true := by
  induction ps with
  | nil => intro g q hq; simpa using hq
  | cons p rest ih =>
    intro g q hq
    exact ih _ q (containsPath_insertPath_mono q p g hq)

theorem containsPath_foldl_insertPath_mem (ps : List (List GSym)) :
    ∀ (g : Gaddag) (p : List GSym), p ∈ ps →
      (List.foldl Gaddag.insertPath g ps).containsPath p = true := by
  induction ps with
  | nil => intro g p hp; simp at hp
  | cons a rest ih =>
    intro g p hp
    rcases List.mem_cons.mp hp with h | h
    · subst h
      exact containsPath_foldl_insertPath_mono rest _ p
        (containsPath_insertPath_self p g)
    · exact ih _ p h

theorem containsPath_addWord_mono (g : Gaddag) (w : String) (q : List GSym)
    (hq : g.containsPath q = true) : (g.addWord w).containsPath q = true :=
  containsPath_foldl_insertPath_mono _ g q hq

theorem containsPath_addWord_self (g : Gaddag) (w : String) (i : Nat)
    (hi : i ≤ w.length) : (g.addWord w).containsPath (gaddagPath w i) = true := by
  refine containsPath_foldl_insertPath_mem _ g _ ?_
  exact List.mem_map_of_mem _ (List.mem_range.mpr (Nat.lt_succ_of_le hi))

/-! ## Dictionary build pipeline

From `buildGaddagFromDictionaryService` (QuackleGADDAGAIService.ts, lines
83-135) and `DictionaryService.loadDictionary`.  The host filesystem is
abstracted as the list of contents found at the three candidate dictionary
paths (`none` = file does not exist at that path).  JavaScript's
`String.prototype.trim`, `split('\n')` and `toUpperCase` are embedded as
structurally recursive functions over the character list. -/

def isWsChar (c : Char) : Bool :=
  c = ' ' || c = '\t' || c = '\n' || c = '\r' || c = '\x0b' || c = '\x0c'

/-- JS `trim`: drop whitespace from both ends. -/
def strTrim (s : String) : String :=
  ⟨((s.data.dropWhile isWsChar).reverse.dropWhile isWsChar).reverse⟩

/-- JS `split('\n')` helper over the character list. -/
def splitNlAux : List Char → List Char → List (List Char)
  | [], acc => [acc.reverse]
  | c :: rest, acc =>
    if c = '\n' then acc.reverse :: splitNlAux rest []
    else splitNlAux rest (c :: acc)

/-- JS `split('\n')`. -/
def splitNl (s : String) : List String :=
  (splitNlAux s.data []).map (fun l => ⟨l⟩)

/-- JS `toUpperCase` (ASCII letters). -/
def strUpper (s : String) : String := ⟨s.data.map Char.toUpper⟩

/-- The word list derived from raw file content:
`content.trim().split('\n').map(word => word.trim().toUpperCase())`. -/
def buildWords (content : String) : List String :=
  (splitNl (strTrim content)).map (fun w => strUpper (strTrim w))

/-- One iteration of the inner chunk loop:
`if (word && word.length > 0) gaddag.addWord(word)`. -/
def addWordStep (g : Gaddag) (w : String) : Gaddag :=
  if 0 < w.length then g.addWord w else g

/-- The chunked outer loop: words are processed in chunks of 1000 (the
`setImmediate` yield between chunks has no effect on the inserted words). -/
def addWordsChunked (g : Gaddag) (ws : List String) : Gaddag :=
  match ws with
  | [] => g
  | w :: rest =>
    addWordsChunked (List.foldl addWordStep g ((w :: rest).take 1000))
      ((w :: rest).drop 1000)
termination_by ws.length
decreasing_by simp [List.length_drop]; omega

/-- Function `buildGaddagFromDictionaryService`, success path: build the gaddag from
the words of the file content. -/
def buildGaddagFromWords (content : String) : Gaddag :=
  addWordsChunked Gaddag.empty (buildWords content)

/-- Function `buildGaddagFromDictionaryService`: scan the candidate paths in order,
build from the first existing file, throw when none exists. -/
def buildGaddagFromDictionaryService (fsContents : List (Option String)) :
    Except String Gaddag :=
  match fsContents.findSome? id with
  | some content => .ok (buildGaddagFromWords content)
  | none => .error "No local dictionary file found"

/-- Method `DictionaryService.loadDictionary` (src/unnamed/part_001): the collection
of words loaded from the first existing candidate path, as a list (the JS code
stores them in a `Set`); throws when no file exists. -/
def loadDictionary (fsContents : List (Option String)) :
    Except String (List String) :=
  match fsContents.findSome? id with
  | some content => .ok ((splitNl (strTrim content)).map
      (fun w => strUpper (strTrim w)))
  | none => .error "Could not load dictionary from local files"

/-! ### Pipeline lemmas -/

theorem foldl_addWordStep_eq_filter (ws : List String) :
    ∀ g : Gaddag, List.foldl addWordStep g ws =
      List.foldl Gaddag.addWord g (ws.filter (fun w => 0 < w.length)) := by
  induction ws with
  | nil => intro g; simp
  | cons w rest ih =>
    intro g
    by_cases h : 0 < w.length
    · simp [addWordStep, h, List.filter_cons, ih]
    · simp [addWordStep, h, List.filter_cons, ih]

theorem addWordsChunked_eq_foldl_aux (n : Nat) :
    ∀ (ws : List String), ws.length ≤ n → ∀ g : Gaddag,
      addWordsChunked g ws = List.foldl addWordStep g ws := by
  induction n with
  | zero =>
    intro ws hlen g
    have : ws = [] := List.eq_nil_of_length_eq_zero (Nat.le_zero.mp hlen)
    subst this
    simp [addWordsChunked]
  | succ n ih =>
    intro ws hlen g
    cases ws with
    | nil => simp [addWordsChunked]
    | cons w rest =>
      have hlen' : ((w :: rest).drop 1000).length ≤ n := by
        simp only [List.length_drop, List.length_cons] at hlen ⊢
        omega
      rw [addWordsChunked]
      rw [ih ((w :: rest).drop 1000) hlen']
      rw [← List.foldl_append, List.take_append_drop]

theorem addWordsChunked_eq_foldl (g : Gaddag) (ws : List String) :
    addWordsChunked g ws = List.foldl addWordStep g ws :=
  addWordsChunked_eq_foldl_aux ws.length ws (Nat.le_refl _) g

theorem containsPath_foldl_addWord_mono (ws : List String) :
    ∀ (g : Gaddag) (q : List GSym), g.containsPath q = true →
      (List.foldl Gaddag.addWord g ws).containsPath q = true := by
  induction ws with
  | nil => intro g q hq; simpa using hq
  | cons a rest ih =>
    intro g q hq
    exact ih _ q (containsPath_addWord_mono g a q hq)

theorem containsPath_foldl_addWord_mem (ws : List String) :
    ∀ (g : Gaddag) (w : String), w ∈ ws → ∀ i, i ≤ w.length →
      (List.foldl Gaddag.addWord g ws).containsPath (gaddagPath w i) = true := by
  induction ws with
  | nil => intro g w hw; simp at hw
  | cons a rest ih =>
    intro g w hw i hi
    rcases List.mem_cons.mp hw with h | h
    · subst h
      simp only [List.foldl_cons]
      exact containsPath_foldl_addWord_mono rest _ _
        (containsPath_addWord_self g w i hi)
    · simp only [List.foldl_cons]
      exact ih (g.addWord a) w h i hi

/-- Claim C7: every line of the word source is trimmed and upper-cased before
insertion, and empty strings never reach `addWord`: the chunked build loop
equals folding `addWord` over exactly the nonempty processed words, and every
such word is the trimmed uppercase form of one source line with length at
least one. -/
theorem claim7_words_normalized (content : String) (g : Gaddag) :
    addWordsChunked g (buildWords content) =
      List.foldl Gaddag.addWord g
        ((buildWords content).filter (fun w => 0 < w.length)) ∧
    ∀ w ∈ (buildWords content).filter (fun w => 0 < w.length),
      ∃ line ∈ splitNl (strTrim content),
        w = strUpper (strTrim line) ∧ 1 ≤ w.length := by
  constructor
  · rw [addWordsChunked_eq_foldl, foldl_addWordStep_eq_filter]
  · intro w hw
    rcases List.mem_filter.mp hw with ⟨hmem, hlen⟩
    rcases List.mem_map.mp hmem with ⟨line, hline, hEq⟩
    exact ⟨line, hline, hEq.symm, of_decide_eq_true hlen⟩

/-- Witness for C7 at concrete content. -/
theorem claim7_words_normalized_witness :
    ("CAT" ∈ (buildWords " cat \nDOG\n\n").filter (fun w => 0 < w.length)) ∧
    ∃ line ∈ splitNl (strTrim " cat \nDOG\n\n"),
      "CAT" = strUpper (strTrim line) ∧ 1 ≤ ("CAT" : String).length := by
  refine ⟨by decide, ?_⟩
  exact (claim7_words_normalized " cat \nDOG\n\n" Gaddag.empty).2 "CAT" (by decide)

/-- Claim C1: after building the dictionary from a word list, for every
inserted word `W` and every split position `i ≤ |W|`, the GADDAG contains the
path `reverse (W[0..i)) ++ [delimiter] ++ W[i..)` ending at a node marked
complete. -/
theorem claim1_gaddag_completeness (content : String) (w : String) (i : Nat)
    (hw : w ∈ (buildWords content).filter (fun w => 0 < w.length))
    (hi : i ≤ w.length) :
    (buildGaddagFromWords content).containsPath (gaddagPath w i) = true := by
  unfold buildGaddagFromWords
  rw [addWordsChunked_eq_foldl, foldl_addWordStep_eq_filter]
  exact containsPath_foldl_addWord_mem _ Gaddag.empty w hw i hi

/-- Witness for C1: the word "CAT" from a two-word source, split at i = 2. -/
theorem claim1_gaddag_completeness_witness :
    ("CAT" ∈ (buildWords "cat\ndog").filter (fun w => 0 < w.length)) ∧
    (2 ≤ ("CAT" : String).length) ∧
    (buildGaddagFromWords "cat\ndog").containsPath (gaddagPath "CAT" 2) = true :=
  ⟨by decide, by decide,
    claim1_gaddag_completeness "cat\ndog" "CAT" 2 (by decide) (by decide)⟩

/-- Claim C2 (code behavior at the claim's inputs): with no word-source file
at any candidate path, both builders reject.  But when the word source exists
and contains no words (empty content), `buildGaddagFromDictionaryService`
returns an empty-but-functioning gaddag and `loadDictionary` returns the
one-element collection containing the empty string — neither throws, contrary
to the claim and the spec. -/
theorem claim2_empty_source_not_rejected :
    buildGaddagFromDictionaryService [none, none, none] =
      .error "No local dictionary file found" ∧
    loadDictionary [none, none, none] =
      .error "Could not load dictionary from local files" ∧
    buildGaddagFromDictionaryService [some "", none, none] =
      .ok Gaddag.empty ∧
    loadDictionary [some "", none, none] = .ok [""] := by
  refine ⟨rfl, rfl, ?_, rfl⟩
  show Except.ok (buildGaddagFromWords "") = Except.ok Gaddag.empty
  rw [buildGaddagFromWords, addWordsChunked_eq_foldl]
  rfl

/-! ## Tiles, board cells and move conversion

From `convertGaddagMoveToPlacedTiles` (QuackleGADDAGAIService.ts, lines
478-536).  A board cell is reduced to its `tile` field (the only field the
conversion reads). -/

structure Tile where
  id : String
  letter : Char
  value : Nat
  isBlank : Bool
  chosenLetter : Option Char := none
deriving DecidableEq, Repr

structure PlacedTile where
  tile : Tile
  row : Nat
  col : Nat
deriving DecidableEq, Repr

abbrev BoardT := List (List (Option Tile))

/-- Check `gameBoard[row] && gameBoard[row][col] && gameBoard[row][col].tile`. -/
def occupiedAt (board : BoardT) (r c : Nat) : Bool :=
  match board.get? r with
  | some rowCells =>
    match rowCells.get? c with
    | some cell => cell.isSome
    | none => false
  | none => false

/-- A candidate move produced by the gaddag generator (`Move` from
`./gaddag/generator`): word, start position, direction, score. -/
structure GMove where
  word : String
  row : Nat
  col : Nat
  dirH : Bool
  score : Nat := 0
deriving DecidableEq, Repr

/-- Cell targeted by character `i` of the move's word:
`row = isHorizontal ? startRow : startRow + i`,
`col = isHorizontal ? startCol + i : startCol`. -/
def movePos (mv : GMove) (i : Nat) : Nat × Nat :=
  if mv.dirH then (mv.row, mv.col + i) else (mv.row + i, mv.col)

/-- Lookup `playerTiles.find(t => t.letter.toUpperCase() === letter &&
!usedTileIds.includes(t.id))`. -/
def findRegular (playerTiles : List Tile) (letter : Char)
    (used : List String) : Option Tile :=
  playerTiles.find? (fun t => t.letter.toUpper == letter && !(used.contains t.id))

/-- Lookup `playerTiles.find(t => t.isBlank && !usedTileIds.includes(t.id))`. -/
def findBlank (playerTiles : List Tile) (used : List String) : Option Tile :=
  playerTiles.find? (fun t => t.isBlank && !(used.contains t.id))

/-- Tile chosen for a letter: a matching unused rack tile, else an unused
blank re-labelled with the chosen letter at value 0, else none. -/
def availableFor (playerTiles : List Tile) (letter : Char)
    (used : List String) : Option Tile :=
  match findRegular playerTiles letter used with
  | some t => some t
  | none =>
    match findBlank playerTiles used with
    | some bt =>
      some { bt with chosenLetter := some letter, value := 0, isBlank := true }
    | none => none

/-- The conversion loop: skip occupied cells, consume one unused rack tile per
empty cell, abort with `[]` when a letter cannot be supplied. -/
def convertGo (mv : GMove) (playerTiles : List Tile) (board : BoardT) :
    List Char → Nat → List PlacedTile → List String → List PlacedTile
  | [], _, placed, _ => placed
  | ch :: rest, i, placed, used =>
    let rc := movePos mv i
    if occupiedAt board rc.1 rc.2 then
      convertGo mv playerTiles board rest (i + 1) placed used
    else
      match availableFor playerTiles ch.toUpper used with
      | some t =>
        convertGo mv playerTiles board rest (i + 1)
          (placed ++ [⟨t, rc.1, rc.2⟩]) (used ++ [t.id])
      | none => []

def convertGaddagMoveToPlacedTiles (mv : GMove) (playerTiles : List Tile)
    (board : BoardT) : List PlacedTile :=
  convertGo mv playerTiles board mv.word.data 0 [] []

/-- Positions of the word's cells not already occupied on the board —
exactly the cells that must receive a new tile. -/
def newTilePositions (mv : GMove) (board : BoardT) :
    List Char → Nat → List (Nat × Nat)
  | [], _ => []
  | _ :: rest, i =>
    let rc := movePos mv i
    if occupiedAt board rc.1 rc.2 then newTilePositions mv board rest (i + 1)
    else rc :: newTilePositions mv board rest (i + 1)

/-- Rack blanks are letter-inert for this move: no blank's face letter
matches a letter of the word (in the game blanks carry the face '?'). -/
def blankRackHyp (mv : GMove) (playerTiles : List Tile) : Prop :=
  ∀ t ∈ playerTiles, t.isBlank = true →
    ∀ c ∈ mv.word.data, ¬(t.letter.toUpper = c.toUpper)

/-- A placed blank records the letter it stands for and scores zero. -/
def blankTracked (mv : GMove) (pt : PlacedTile) : Prop :=
  pt.tile.isBlank = true → pt.tile.value = 0 ∧
    ∃ j cj, mv.word.data[j]? = some cj ∧ movePos mv j = (pt.row, pt.col) ∧
      pt.tile.chosenLetter = some cj.toUpper

theorem convertGo_spec (mv : GMove) (playerTiles : List Tile) (board : BoardT)
    (chs : List Char) :
    ∀ (i : Nat) (placed : List PlacedTile) (used : List String),
    mv.word.data.drop i = chs →
    (∀ pt ∈ placed, pt.tile.id ∈ used) →
    (placed.map (fun pt => pt.tile.id)).Pairwise (· ≠ ·) →
    (∀ pt ∈ placed, occupiedAt board pt.row pt.col = false) →
    (∀ pt ∈ placed, ∃ t ∈ playerTiles, t.id = pt.tile.id) →
    (blankRackHyp mv playerTiles → ∀ pt ∈ placed, blankTracked mv pt) →
    ((convertGo mv playerTiles board chs i placed used).map
        (fun pt => pt.tile.id)).Pairwise (· ≠ ·) ∧
    (∀ pt ∈ convertGo mv playerTiles board chs i placed used,
        occupiedAt board pt.row pt.col = false) ∧
    (∀ pt ∈ convertGo mv playerTiles board chs i placed used,
        ∃ t ∈ playerTiles, t.id = pt.tile.id) ∧
    (convertGo mv playerTiles board chs i placed used = [] ∨
      (convertGo mv playerTiles board chs i placed used).map
          (fun pt => (pt.row, pt.col)) =
        placed.map (fun pt => (pt.row, pt.col)) ++
          newTilePositions mv board chs i) ∧
    (blankRackHyp mv playerTiles →
      ∀ pt ∈ convertGo mv playerTiles board chs i placed used,
        blankTracked mv pt) := by
  induction chs with
  | nil =>
    intro i placed used _ _ h2 h3 h4 h5
    simp only [convertGo, newTilePositions]
    exact ⟨h2, h3, h4, Or.inr (by simp), h5⟩
  | cons ch rest ih =>
    intro i placed used hdrop h1 h2 h3 h4 h5
    have hdrop' : mv.word.data.drop (i + 1) = rest := by
      have h' := congrArg (List.drop 1) hdrop
      simpa [List.drop_drop, Nat.add_comm] using h'
    have hch : ch ∈ mv.word.data := by
      refine List.drop_subset i _ ?_
      rw [hdrop]
      exact List.mem_cons_self ch rest
    have hgetI : mv.word.data[i]? = some ch := by
      have h0 := List.getElem?_drop mv.word.data i 0
      rw [hdrop] at h0
      simpa using h0.symm
    by_cases hocc : occupiedAt board (movePos mv i).1 (movePos mv i).2 = true
    · have hres : convertGo mv playerTiles board (ch :: rest) i placed used =
          convertGo mv playerTiles board rest (i + 1) placed used := by
        simp [convertGo, hocc]
      have hnp : newTilePositions mv board (ch :: rest) i =
          newTilePositions mv board rest (i + 1) := by
        simp [newTilePositions, hocc]
      rw [hres, hnp]
      exact ih (i + 1) placed used hdrop' h1 h2 h3 h4 h5
    · have hoccF : occupiedAt board (movePos mv i).1 (movePos mv i).2 = false :=
        by simpa using hocc
      cases havail : availableFor playerTiles ch.toUpper used with
      | none =>
        have hres : convertGo mv playerTiles board (ch :: rest) i placed used
            = [] := by
          simp [convertGo, hoccF, havail]
        rw [hres]
        exact ⟨by simp, by simp, by simp, Or.inl rfl, by simp⟩
      | some t =>
        -- facts about the chosen tile
        have hfacts : t.id ∉ used ∧ (∃ t0 ∈ playerTiles, t0.id = t.id) ∧
            (blankRackHyp mv playerTiles →
              blankTracked mv ⟨t, (movePos mv i).1, (movePos mv i).2⟩) := by
          unfold availableFor at havail
          cases hreg : findRegular playerTiles ch.toUpper used with
          | some tr =>
            rw [hreg] at havail
            have htr : tr = t := Option.some.inj havail
            subst htr
            unfold findRegular at hreg
            have hp := List.find?_some hreg
            have hm := List.mem_of_find?_eq_some hreg
            rw [Bool.and_eq_true] at hp
            obtain ⟨hp1, hp2⟩ := hp
            rw [Bool.not_eq_true'] at hp2
            refine ⟨by simpa using hp2, ⟨tr, hm, rfl⟩, ?_⟩
            intro hb hbl
            exact absurd (eq_of_beq hp1) (hb tr hm hbl ch hch)
          | none =>
            rw [hreg] at havail
            cases hbl : findBlank playerTiles used with
            | some bt =>
              rw [hbl] at havail
              have hbt := Option.some.inj havail
              unfold findBlank at hbl
              have hp := List.find?_some hbl
              have hm := List.mem_of_find?_eq_some hbl
              rw [Bool.and_eq_true] at hp
              obtain ⟨_, hp2⟩ := hp
              rw [Bool.not_eq_true'] at hp2
              subst hbt
              refine ⟨by simpa using hp2, ⟨bt, hm, rfl⟩, ?_⟩
              intro _ _
              refine ⟨rfl, i, ch, hgetI, by simp, rfl⟩
            | none =>
              rw [hbl] at havail
              exact absurd havail (by simp)
        obtain ⟨hnotused, hfrom, hblanknew⟩ := hfacts
        have hres : convertGo mv playerTiles board (ch :: rest) i placed used =
            convertGo mv playerTiles board rest (i + 1)
              (placed ++ [⟨t, (movePos mv i).1, (movePos mv i).2⟩])
              (used ++ [t.id]) := by
          simp [convertGo, hoccF, havail]
        have hnp : newTilePositions mv board (ch :: rest) i =
            movePos mv i :: newTilePositions mv board rest (i + 1) := by
          simp [newTilePositions, hoccF]
        rw [hres, hnp]
        have h1' : ∀ pt ∈ placed ++ [(⟨t, (movePos mv i).1,
            (movePos mv i).2⟩ : PlacedTile)], pt.tile.id ∈ used ++ [t.id] := by
          intro pt hpt
          rcases List.mem_append.mp hpt with h | h
          · exact List.mem_append_left _ (h1 pt h)
          · simp at h
            subst h
            simp
        have h2' : ((placed ++ [(⟨t, (movePos mv i).1,
            (movePos mv i).2⟩ : PlacedTile)]).map
            (fun pt => pt.tile.id)).Pairwise (· ≠ ·) := by
          rw [List.map_append, List.pairwise_append]
          refine ⟨h2, by simp, ?_⟩
          intro a ha b hb
          simp at hb
          subst hb
          rcases List.mem_map.mp ha with ⟨pt, hpt, rfl⟩
          intro hEq
          exact hnotused (hEq ▸ h1 pt hpt)
        have h3' : ∀ pt ∈ placed ++ [(⟨t, (movePos mv i).1,
            (movePos mv i).2⟩ : PlacedTile)],
            occupiedAt board pt.row pt.col = false := by
          intro pt hpt
          rcases List.mem_append.mp hpt with h | h
          · exact h3 pt h
          · simp at h
            subst h
            exact hoccF
        have h4' : ∀ pt ∈ placed ++ [(⟨t, (movePos mv i).1,
            (movePos mv i).2⟩ : PlacedTile)],
            ∃ t0 ∈ playerTiles, t0.id = pt.tile.id := by
          intro pt hpt
          rcases List.mem_append.mp hpt with h | h
          · exact h4 pt h
          · simp at h
            subst h
            exact hfrom
        have h5' : blankRackHyp mv playerTiles →
            ∀ pt ∈ placed ++ [(⟨t, (movePos mv i).1,
              (movePos mv i).2⟩ : PlacedTile)], blankTracked mv pt := by
          intro hb pt hpt
          rcases List.mem_append.mp hpt with h | h
          · exact h5 hb pt h
          · simp at h
            subst h
            exact hblanknew hb
        have main := ih (i + 1) _ _ hdrop' h1' h2' h3' h4' h5'
        refine ⟨main.1, main.2.1, main.2.2.1, ?_, main.2.2.2.2⟩
        rcases main.2.2.2.1 with h | h
        · exact Or.inl h
        · right
          rw [h, List.map_append]
          simp

/-- Claim C10: `convertGaddagMoveToPlacedTiles` never assigns one rack tile to
two board positions (placed tile ids are pairwise distinct and each comes from
the rack), skips positions already occupied on the board, and either fills
every needed position or returns the empty list. -/
theorem claim10_rack_consumed_without_reuse (mv : GMove)
    (playerTiles : List Tile) (board : BoardT) :
    ((convertGaddagMoveToPlacedTiles mv playerTiles board).map
        (fun pt => pt.tile.id)).Pairwise (· ≠ ·) ∧
    (∀ pt ∈ convertGaddagMoveToPlacedTiles mv playerTiles board,
        occupiedAt board pt.row pt.col = false) ∧
    (∀ pt ∈ convertGaddagMoveToPlacedTiles mv playerTiles board,
        ∃ t ∈ playerTiles, t.id = pt.tile.id) ∧
    (convertGaddagMoveToPlacedTiles mv playerTiles board = [] ∨
      (convertGaddagMoveToPlacedTiles mv playerTiles board).map
          (fun pt => (pt.row, pt.col)) =
        newTilePositions mv board mv.word.data 0) := by
  have h := convertGo_spec mv playerTiles board mv.word.data 0 [] []
    (by simp) (by simp) (by simp) (by simp) (by simp)
    (by intro _ pt hpt; exact absurd hpt (List.not_mem_nil pt))
  refine ⟨h.1, h.2.1, h.2.2.1, ?_⟩
  rcases h.2.2.2.1 with he | he
  · exact Or.inl he
  · right
    simpa using he

/-- Witness for C10 at a concrete move: rack {A, A} placing "AA" on an empty
2-cell row — both tiles used, distinct ids, both cells previously empty. -/
theorem claim10_rack_consumed_without_reuse_witness :
    ((convertGaddagMoveToPlacedTiles ⟨"AA", 0, 0, true, 0⟩
        [⟨"t1", 'A', 1, false, none⟩, ⟨"t2", 'A', 1, false, none⟩]
        [[none, none]]).map (fun pt => pt.tile.id)).Pairwise (· ≠ ·) ∧
    (convertGaddagMoveToPlacedTiles ⟨"AA", 0, 0, true, 0⟩
        [⟨"t1", 'A', 1, false, none⟩, ⟨"t2", 'A', 1, false, none⟩]
        [[none, none]] = [] ∨
      (convertGaddagMoveToPlacedTiles ⟨"AA", 0, 0, true, 0⟩
          [⟨"t1", 'A', 1, false, none⟩, ⟨"t2", 'A', 1, false, none⟩]
          [[none, none]]).map (fun pt => (pt.row, pt.col)) =
        newTilePositions ⟨"AA", 0, 0, true, 0⟩ [[none, none]]
          ("AA" : String).data 0) :=
  ⟨(claim10_rack_consumed_without_reuse _ _ _).1,
    (claim10_rack_consumed_without_reuse _ _ _).2.2.2⟩

/-- Claim C6: whenever a blank tile is used for a move (no rack blank's face
letter collides with a word letter, as in the game where blanks carry '?'),
the produced placed tile keeps `isBlank = true`, carries value 0, and records
in `chosenLetter` the uppercased word letter it stands for at its position. -/
theorem claim6_blank_records_chosen_letter (mv : GMove)
    (playerTiles : List Tile) (board : BoardT)
    (hb : blankRackHyp mv playerTiles) :
    ∀ pt ∈ convertGaddagMoveToPlacedTiles mv playerTiles board,
      pt.tile.isBlank = true → pt.tile.value = 0 ∧
        ∃ j cj, mv.word.data[j]? = some cj ∧
          movePos mv j = (pt.row, pt.col) ∧
          pt.tile.chosenLetter = some cj.toUpper := by
  have h := convertGo_spec mv playerTiles board mv.word.data 0 [] []
    (by simp) (by simp) (by simp) (by simp) (by simp)
    (by intro _ pt hpt; exact absurd hpt (List.not_mem_nil pt))
  intro pt hpt hblank
  exact h.2.2.2.2 hb pt hpt hblank

/-- Witness for C6: a rack holding only a blank '?' placing the word "A". -/
theorem claim6_blank_records_chosen_letter_witness :
    blankRackHyp ⟨"A", 0, 0, true, 0⟩ [⟨"b1", '?', 0, true, none⟩] ∧
    ∀ pt ∈ convertGaddagMoveToPlacedTiles ⟨"A", 0, 0, true, 0⟩
        [⟨"b1", '?', 0, true, none⟩] [[none]],
      pt.tile.isBlank = true → pt.tile.value = 0 ∧
        ∃ j cj, (("A" : String).data)[j]? = some cj ∧
          movePos ⟨"A", 0, 0, true, 0⟩ j = (pt.row, pt.col) ∧
          pt.tile.chosenLetter = some cj.toUpper :=
  ⟨by unfold blankRackHyp; decide,
    claim6_blank_records_chosen_letter _ _ _ (by unfold blankRackHyp; decide)⟩

/-! ## AI move selection

From `generateMove` (QuackleGADDAGAIService.ts, lines 180-265) and
`generateStrategicExchange` (lines 538-560).  Asynchronous collaborator
outcomes are explicit: `initOutcome` is the result of the
`ensureInitialized` / 3s-timeout race, `engineReady` is
`gaddag && dictionary`, `genOutcome` the result of the `generateMoves` /
2s-timeout race, `validate` the external validation (which may itself throw),
and `r` the `Math.random()` draw used by the exchange size. -/

inductive AIMoveType where
  | WORD
  | EXCHANGE
  | PASS
deriving DecidableEq, Repr

structure AIMove where
  type : AIMoveType
  tiles : Option (List PlacedTile) := none
  exchangeTileIds : Option (List String) := none
deriving DecidableEq, Repr

structure Player where
  id : String
  name : String
  tiles : List Tile
deriving DecidableEq, Repr

def isVowelTile (t : Tile) : Bool := ['A', 'E', 'I', 'O', 'U'].contains t.letter.toUpper

/-- The JS sort comparator, as "a sorts no later than b": vowels after
non-vowels, then ascending value. -/
def exchangeLe (a b : Tile) : Bool :=
  if isVowelTile a != isVowelTile b then !(isVowelTile a) else a.value ≤ b.value

def insertSorted (x : Tile) : List Tile → List Tile
  | [] => [x]
  | y :: rest => if exchangeLe x y then x :: y :: rest else y :: insertSorted x rest

def sortTiles : List Tile → List Tile
  | [] => []
  | x :: rest => insertSorted x (sortTiles rest)

/-- Function `generateStrategicExchange`: exchange the 3-5 strategically worst tiles
(capped by the rack size). -/
def generateStrategicExchange (tiles : List Tile) (r : Nat) : AIMove :=
  let sorted := sortTiles tiles
  let exchangeCount := min (max 3 (r % 3 + 3)) tiles.length
  { type := .EXCHANGE,
    exchangeTileIds := some ((sorted.take exchangeCount).map (fun t => t.id)) }

/-- The validation loop body: convert the candidate, validate it, succeed on
the first `isValid` result; validation errors and rejections move on. -/
def tryMoves (playerTiles : List Tile) (board : BoardT)
    (validate : List PlacedTile → Except Unit Bool) :
    List GMove → Option (List PlacedTile)
  | [] => none
  | m :: rest =>
    match validate (convertGaddagMoveToPlacedTiles m playerTiles board) with
    | .ok true => some (convertGaddagMoveToPlacedTiles m playerTiles board)
    | _ => tryMoves playerTiles board validate rest

/-- Does candidate `m` convert and pass validation? -/
def moveValidates (playerTiles : List Tile) (board : BoardT)
    (validate : List PlacedTile → Except Unit Bool) (m : GMove) : Bool :=
  match validate (convertGaddagMoveToPlacedTiles m playerTiles board) with
  | .ok true => true
  | _ => false

/-- Function `generateMove`: find the player (unknown id → PASS); on initialization
failure, missing engine, generation error/timeout, empty candidate list, or
no validating candidate among the top 15, fall back to a strategic exchange;
otherwise play the first validating candidate as a WORD move. -/
def generateMove (players : List Player) (playerId : String)
    (initOutcome : Except Unit Unit) (engineReady : Bool)
    (genOutcome : Except Unit (List GMove)) (board : BoardT)
    (validate : List PlacedTile → Except Unit Bool) (r : Nat) : AIMove :=
  match players.find? (fun p => p.id == playerId) with
  | none => { type := .PASS }
  | some player =>
    match initOutcome with
    | .error _ => generateStrategicExchange player.tiles r
    | .ok _ =>
      if !engineReady then generateStrategicExchange player.tiles r
      else
        match genOutcome with
        | .error _ => generateStrategicExchange player.tiles r
        | .ok moves =>
          if moves.isEmpty then generateStrategicExchange player.tiles r
          else
            match tryMoves player.tiles board validate (moves.take 15) with
            | some pts => { type := .WORD, tiles := some pts }
            | none => generateStrategicExchange player.tiles r

theorem tryMoves_eq_find (playerTiles : List Tile) (board : BoardT)
    (validate : List PlacedTile → Except Unit Bool) (ms : List GMove) :
    tryMoves playerTiles board validate ms =
      (ms.find? (moveValidates playerTiles board validate)).map
        (fun m => convertGaddagMoveToPlacedTiles m playerTiles board) := by
  induction ms with
  | nil => simp [tryMoves]
  | cons m rest ih =>
    cases h : validate (convertGaddagMoveToPlacedTiles m playerTiles board) with
    | ok b =>
      cases b
      · simp [tryMoves, List.find?_cons, moveValidates, h, ih]
      · simp [tryMoves, List.find?_cons, moveValidates, h]
    | error e => simp [tryMoves, List.find?_cons, moveValidates, h, ih]

theorem find?_singleton_self (p : Player) :
    List.find? (fun q => q.id == p.id) [p] = some p := by
  simp [List.find?_cons]

/-- Claim C3: `generateMove` tries at most the first 15 generated candidates
in order, plays the first one that passes validation as a WORD move, and
falls back to the strategic exchange when none of them validates. -/
theorem claim3_top15_first_valid (p : Player) (moves : List GMove)
    (board : BoardT) (validate : List PlacedTile → Except Unit Bool) (r : Nat) :
    generateMove [p] p.id (.ok ()) true (.ok moves) board validate r =
      match (moves.take 15).find? (moveValidates p.tiles board validate) with
      | some m =>
          { type := .WORD,
            tiles := some (convertGaddagMoveToPlacedTiles m p.tiles board) }
      | none => generateStrategicExchange p.tiles r := by
  unfold generateMove
  rw [find?_singleton_self]
  cases moves with
  | nil => simp [tryMoves]
  | cons m ms =>
    simp only [List.isEmpty_cons, Bool.not_true, Bool.false_eq_true,
      if_false, ite_false]
    rw [tryMoves_eq_find]
    cases hf : (List.take 15 (m :: ms)).find?
        (moveValidates p.tiles board validate) <;> simp [hf]

/-- Claim C4: both a move-generation timeout (the generation race resolving
to an error) and a generation that completes with zero candidates make
`generateMove` return the strategic exchange fallback — an EXCHANGE move —
rather than raising an error. -/
theorem claim4_timeout_and_empty_recoverable (p : Player) (board : BoardT)
    (validate : List PlacedTile → Except Unit Bool) (r : Nat) :
    generateMove [p] p.id (.ok ()) true (.error ()) board validate r =
      generateStrategicExchange p.tiles r ∧
    generateMove [p] p.id (.ok ()) true (.ok []) board validate r =
      generateStrategicExchange p.tiles r ∧
    (generateStrategicExchange p.tiles r).type = .EXCHANGE := by
  refine ⟨?_, ?_, rfl⟩ <;>
    · unfold generateMove
      rw [find?_singleton_self]
      simp

/-- Claim C9: `generateMove` is total at its interface: it always yields a
PASS, EXCHANGE or WORD move; an unknown player id yields PASS; an
initialization failure, a missing engine, and a top-15 validation wipeout
all yield the strategic exchange. -/
theorem claim9_generate_move_total :
    (∀ (players : List Player) (playerId : String)
        (initOutcome : Except Unit Unit) (engineReady : Bool)
        (genOutcome : Except Unit (List GMove)) (board : BoardT)
        (validate : List PlacedTile → Except Unit Bool) (r : Nat),
      (generateMove players playerId initOutcome engineReady genOutcome board
          validate r).type = .PASS ∨
      (generateMove players playerId initOutcome engineReady genOutcome board
          validate r).type = .EXCHANGE ∨
      (generateMove players playerId initOutcome engineReady genOutcome board
          validate r).type = .WORD) ∧
    (∀ (players : List Player) (playerId : String)
        (initOutcome : Except Unit Unit) (engineReady : Bool)
        (genOutcome : Except Unit (List GMove)) (board : BoardT)
        (validate : List PlacedTile → Except Unit Bool) (r : Nat),
      players.find? (fun p => p.id == playerId) = none →
      generateMove players playerId initOutcome engineReady genOutcome board
        validate r = { type := .PASS }) ∧
    (∀ (p : Player) (engineReady : Bool) (genOutcome : Except Unit (List GMove))
        (board : BoardT) (validate : List PlacedTile → Except Unit Bool) (r : Nat),
      generateMove [p] p.id (.error ()) engineReady genOutcome board validate r
        = generateStrategicExchange p.tiles r) ∧
    (∀ (p : Player) (genOutcome : Except Unit (List GMove)) (board : BoardT)
        (validate : List PlacedTile → Except Unit Bool) (r : Nat),
      generateMove [p] p.id (.ok ()) false genOutcome board validate r
        = generateStrategicExchange p.tiles r) ∧
    (∀ (p : Player) (moves : List GMove) (board : BoardT)
        (validate : List PlacedTile → Except Unit Bool) (r : Nat),
      (moves.take 15).find? (moveValidates p.tiles board validate) = none →
      generateMove [p] p.id (.ok ()) true (.ok moves) board validate r
        = generateStrategicExchange p.tiles r) := by
  refine ⟨?_, ?_, ?_, ?_, ?_⟩
  · intro players playerId io er go board validate r
    unfold generateMove
    cases players.find? (fun p => p.id == playerId) with
    | none => exact Or.inl rfl
    | some p =>
      cases io with
      | error e => exact Or.inr (Or.inl rfl)
      | ok u =>
        cases er with
        | false => exact Or.inr (Or.inl rfl)
        | true =>
          cases go with
          | error e => exact Or.inr (Or.inl rfl)
          | ok moves =>
            cases moves with
            | nil => exact Or.inr (Or.inl rfl)
            | cons m ms =>
              cases htry : tryMoves p.tiles board validate
                  (List.take 15 (m :: ms)) with
              | none =>
                simp only [htry]
                exact Or.inr (Or.inl rfl)
              | some pts =>
                simp only [htry]
                exact Or.inr (Or.inr rfl)
  · intro players playerId io er go board validate r hfind
    unfold generateMove
    rw [hfind]
  · intro p er go board validate r
    unfold generateMove
    rw [find?_singleton_self]
  · intro p go board validate r
    unfold generateMove
    rw [find?_singleton_self]
    simp
  · intro p moves board validate r hnone
    unfold generateMove
    rw [find?_singleton_self]
    cases moves with
    | nil => simp [tryMoves]
    | cons m ms =>
      simp only [List.isEmpty_cons, Bool.not_true, Bool.false_eq_true,
        if_false, ite_false]
      rw [tryMoves_eq_find, hnone]
      simp

/-- Witness for C9: the unknown-player and validation-wipeout fallbacks at
concrete inputs. -/
theorem claim9_generate_move_total_witness :
    generateMove [] "p1" (.ok ()) true (.ok []) []
        (fun _ => .ok false) 0 = { type := .PASS } ∧
    generateMove [⟨"p2", "Baal", []⟩] "p2" (.ok ()) true
        (.ok [⟨"A", 0, 0, true, 0⟩]) [[none]] (fun _ => .ok false) 0 =
      generateStrategicExchange [] 0 :=
  ⟨claim9_generate_move_total.2.1 [] "p1" (.ok ()) true (.ok []) []
      (fun _ => .ok false) 0 rfl,
    claim9_generate_move_total.2.2.2.2 ⟨"p2", "Baal", []⟩
      [⟨"A", 0, 0, true, 0⟩] [[none]] (fun _ => .ok false) 0 rfl⟩

/-! ## Board multipliers and word scoring

`MULTIPLIER_LAYOUT` is transcribed from src/src/constants/board.ts. -/

inductive MultiplierType where
  | DOUBLE_LETTER
  | TRIPLE_LETTER
  | DOUBLE_WORD
  | TRIPLE_WORD
  | CENTER
deriving DecidableEq, Repr

def TW : Option MultiplierType := some .TRIPLE_WORD
def DW : Option MultiplierType := some .DOUBLE_WORD
def TL : Option MultiplierType := some .TRIPLE_LETTER
def DL : Option MultiplierType := some .DOUBLE_LETTER
def CE : Option MultiplierType := some .CENTER

def MULTIPLIER_LAYOUT : List (List (Option MultiplierType)) :=
  [[TW, none, none, DL, none, none, none, TW, none, none, none, DL, none, none, TW],
   [none, DW, none, none, none, TL, none, none, none, TL, none, none, none, DW, none],
   [none, none, DW, none, none, none, DL, none, DL, none, none, none, DW, none, none],
   [DL, none, none, DW, none, none, none, DL, none, none, none, DW, none, none, DL],
   [none, none, none, none, DW, none, none, none, none, none, DW, none, none, none, none],
   [none, TL, none, none, none, TL, none, none, none, TL, none, none, none, TL, none],
   [none, none, DL, none, none, none, DL, none, DL, none, none, none, DL, none, none],
   [TW, none, none, DL, none, none, none, CE, none, none, none, DL, none, none, TW],
   [none, none, DL, none, none, none, DL, none, DL, none, none, none, DL, none, none],
   [none, TL, none, none, none, TL, none, none, none, TL, none, none, none, TL, none],
   [none, none, none, none, DW, none, none, none, none, none, DW, none, none, none, none],
   [DL, none, none, DW, none, none, none, DL, none, none, none, DW, none, none, DL],
   [none, none, DW, none, none, none, DL, none, DL, none, none, none, DW, none, none],
   [none, DW, none, none, none, TL, none, none, none, TL, none, none, none, DW, none],
   [TW, none, none, DL, none, none, none, TW, none, none, none, DL, none, none, TW]]

def multiplierAt (r c : Nat) : Option MultiplierType :=
  match MULTIPLIER_LAYOUT.get? r with
  | some rowM => (rowM.get? c).getD none
  | none => none

/-- One cell of a formed word: the letter value it contributes, its board
position, and whether it received a new tile this move. -/
structure ScoredCell where
  value : Nat
  row : Nat
  col : Nat
  isNew : Bool
deriving DecidableEq, Repr

/-- Modelled from the spec: the score calculator (`calculateTurnScore` from
`./scoreCalculator`) is not part of the available sources.  Per the spec, a
word's score is the "sum of (letter value × letter multiplier at that cell,
multiplier applies only if the cell received a new tile this move) × word
multiplier product across all new-tile cells in that word"; the center star
acts as the word-double of the first move. -/
def letterMultiplier : Option MultiplierType → Nat
  | some .DOUBLE_LETTER => 2
  | some .TRIPLE_LETTER => 3
  | _ => 1

/-- Modelled from the spec: word multiplier of a cell (center = word-double). -/
def wordMultiplier : Option MultiplierType → Nat
  | some .DOUBLE_WORD => 2
  | some .TRIPLE_WORD => 3
  | some .CENTER => 2
  | _ => 1

/-- Modelled from the spec: score of one formed word over the fixed board
layout — letter multipliers only on new-tile cells, times the product of
word multipliers of new-tile cells. -/
def scoreWord (cells : List ScoredCell) : Nat :=
  (cells.foldl
    (fun acc cl => acc + cl.value *
      (if cl.isNew then letterMultiplier (multiplierAt cl.row cl.col) else 1))
    0) *
  (cells.foldl
    (fun acc cl => acc *
      (if cl.isNew then wordMultiplier (multiplierAt cl.row cl.col) else 1))
    1)

/-- Claim C5: "CATS" placed through the center of an empty board (row 7,
cols 7-10, all cells newly covered) with C=3, A=1, T=1, S=1 scores
(3+1+1+1) × 2 = 12; the only multiplier involved is the center word-double,
and multipliers do not apply on cells that held a tile before the move
(with the C pre-existing on the center the same word scores 6). -/
theorem claim5_cats_through_center_scores_12 :
    scoreWord [⟨3, 7, 7, true⟩, ⟨1, 7, 8, true⟩, ⟨1, 7, 9, true⟩,
        ⟨1, 7, 10, true⟩] = 12 ∧
    scoreWord [⟨3, 7, 7, false⟩, ⟨1, 7, 8, true⟩, ⟨1, 7, 9, true⟩,
        ⟨1, 7, 10, true⟩] = 6 ∧
    multiplierAt 7 7 = some .CENTER ∧ multiplierAt 7 8 = none ∧
    multiplierAt 7 9 = none ∧ multiplierAt 7 10 = none := by
  refine ⟨rfl, rfl, rfl, rfl, rfl, rfl⟩

/-! ## One-shot memoized initialization

From `initialize` (lines 35-74) and `ensureInitialized` (lines 76-81).  The
sequential abstraction of the async control flow: one step runs the guarded
body to completion with a given build/load outcome; `builds` counts how many
times the GADDAG construction was started. -/

structure SvcState where
  gaddagSet : Bool
  dictSet : Bool
  promiseSet : Bool
  isInitializing : Bool
  builds : Nat
deriving DecidableEq, Repr

/-- Method `initialize()`: return immediately when already running or when both the
gaddag and the dictionary are present; otherwise run the build (gaddag, then
dictionary set), which may fail at either stage. -/
def initStep (s : SvcState) (gOk dOk : Bool) : SvcState :=
  if s.isInitializing || (s.gaddagSet && s.dictSet) then s
  else
    if gOk then
      if dOk then
        { s with isInitializing := false, gaddagSet := true, dictSet := true,
                 builds := s.builds + 1 }
      else
        { s with isInitializing := false, gaddagSet := true,
                 builds := s.builds + 1 }
    else
      { s with isInitializing := false, builds := s.builds + 1 }

/-- Method `ensureInitialized()`: start `initialize()` and store the promise only
when `initPromise` is null; later calls merely await the stored promise. -/
def ensureInitStep (s : SvcState) (gOk dOk : Bool) : SvcState :=
  if s.promiseSet then s
  else { initStep s gOk dOk with promiseSet := true }

inductive SvcOp where
  | ensure (gOk dOk : Bool)
  | direct (gOk dOk : Bool)
deriving DecidableEq, Repr

def svcApply (s : SvcState) : SvcOp → SvcState
  | .ensure gOk dOk => ensureInitStep s gOk dOk
  | .direct gOk dOk => initStep s gOk dOk

def svcRun (s : SvcState) : List SvcOp → SvcState
  | [] => s
  | op :: rest => svcRun (svcApply s op) rest

theorem initStep_done (s : SvcState) (gOk dOk : Bool)
    (hg : s.gaddagSet = true) (hd : s.dictSet = true) :
    initStep s gOk dOk = s := by
  simp [initStep, hg, hd]

/-- Claim C8: initialization is memoized as a single shared build:
`ensureInitialized` leaves the stored promise untouched once set,
`initialize` returns unchanged once the gaddag and dictionary are both
present, and after a successful build no sequence of `ensureInitialized` /
`initialize` calls ever starts another build. -/
theorem claim8_single_shared_build :
    (∀ (s : SvcState) (gOk dOk : Bool), s.promiseSet = true →
      ensureInitStep s gOk dOk = s) ∧
    (∀ (s : SvcState) (gOk dOk : Bool), s.gaddagSet = true → s.dictSet = true →
      initStep s gOk dOk = s) ∧
    (∀ (s : SvcState) (ops : List SvcOp), s.gaddagSet = true → s.dictSet = true →
      (svcRun s ops).builds = s.builds) := by
  refine ⟨?_, ?_, ?_⟩
  · intro s gOk dOk hp
    simp [ensureInitStep, hp]
  · intro s gOk dOk hg hd
    exact initStep_done s gOk dOk hg hd
  · intro s ops
    induction ops generalizing s with
    | nil => intro hg hd; rfl
    | cons op rest ih =>
      intro hg hd
      cases op with
      | direct gOk dOk =>
        simp only [svcRun, svcApply]
        rw [initStep_done s gOk dOk hg hd]
        exact ih s hg hd
      | ensure gOk dOk =>
        simp only [svcRun, svcApply, ensureInitStep]
        by_cases hp : s.promiseSet = true
        · simp only [hp, if_true]
          exact ih s hg hd
        · simp only [hp, if_false]
          rw [initStep_done s gOk dOk hg hd]
          have := ih { s with promiseSet := true } hg hd
          simpa using this

/-- Witness for C8: from a successfully initialized state, a mix of calls
performs no further build. -/
theorem claim8_single_shared_build_witness :
    ensureInitStep ⟨true, true, true, false, 1⟩ true true
        = ⟨true, true, true, false, 1⟩ ∧
    initStep ⟨true, true, false, false, 1⟩ false false
        = ⟨true, true, false, false, 1⟩ ∧
    (svcRun ⟨true, true, false, false, 1⟩
        [.ensure true true, .direct false false, .ensure false false]).builds
      = 1 :=
  ⟨claim8_single_shared_build.1 ⟨true, true, true, false, 1⟩ true true rfl,
   claim8_single_shared_build.2.1 ⟨true, true, false, false, 1⟩ false false rfl rfl,
   claim8_single_shared_build.2.2 ⟨true, true, false, false, 1⟩
     [.ensure true true, .direct false false, .ensure false false] rfl rfl⟩
